import Mathlib

/-!
Shallow embedding of the storage core of `Common.FastVector.h`
(class `fast_vector<T, 0, ShouldInitializeElements>`) and verification of
the specified storage-management properties.

Modelling conventions:
* `size_t` is modelled by `Nat`; the one place the C++ arithmetic can wrap
  (`size_ * 3 / 2` in `resize`) wraps explicitly modulo `2 ^ 64`.
* Addresses are abstract naturals (`0` plays the role of `nullptr`); the
  allocator is an oracle (`AllocResult`) saying whether a given
  `malloc`/`realloc` call succeeds and, if so, which address it returns.
* Element cells are `Option α`: `some x` is a constructed element holding
  value `x`, `none` is raw/indeterminate memory (used when
  `ShouldInitializeElements == false` skips construction, and for attached
  bytes whose values are unknown).
* The fields of the C++ class map to `FV`: `data_ ↦ ptr`,
  `size_ ↦ contents.length`, `capacity_ ↦ capacity`,
  `dataIsAllocatedMemory_ ↦ owned`.
* A C++ function that may `throw std::bad_alloc` yields an `Outcome`:
  `ok s` is a normal return with post-state `s`, `thrown s` is a throw with
  the container in state `s` when the exception leaves, and `ub` marks a
  path whose C++ behaviour is undefined.
-/

namespace FastVector

/-- Number of values of the 64-bit `size_t`. -/
def WORD : Nat := 2 ^ 64

/-- Per-instantiation compile-time data of `fast_vector<T, 0, ShouldInitializeElements>`:
`sizeof(T)`, `std::is_trivially_move_constructible<T>`, the
`ShouldInitializeElements` flag, the value produced by `T`'s default
constructor, and the value a moved-from `T` is left holding. -/
structure Ty (α : Type) where
  elemSize : Nat
  trivialMove : Bool
  shouldInit : Bool
  defaultVal : α
  moved : α → α

/-- Container state: `data_`, the constructed/raw cells of `[0, size_)`,
`capacity_` and `dataIsAllocatedMemory_`. -/
structure FV (α : Type) where
  ptr : Nat
  contents : List (Option α)
  capacity : Nat
  owned : Bool
deriving Repr, DecidableEq

/-- `size_` is the number of (possibly raw) cells in `[0, size_)`. -/
def FV.size (v : FV α) : Nat := v.contents.length

/-- `fast_vector()` — all fields at their default member initialisers. -/
def mkEmpty : FV α := ⟨0, [], 0, false⟩

/-- `fast_vector(fast_vector_use_memory_buffer, initialBackingArray)` —
binds a caller-supplied backing region of `cap` elements at `addr`. -/
def mkWithBuffer (addr cap : Nat) : FV α := ⟨addr, [], cap, false⟩

/-- Result of one `malloc`/`realloc` call: an address, or failure (null). -/
inductive AllocResult where
  | ok (addr : Nat)
  | fail
deriving Repr, DecidableEq

/-- Outcome of a C++ member function that may throw: normal return,
`std::bad_alloc` propagating with the container in the given state, or
undefined behaviour. -/
inductive Outcome (σ : Type) where
  | ok (s : σ)
  | thrown (s : σ)
  | ub
deriving Repr, DecidableEq

/-- `max_size()` — `SIZE_MAX / sizeof(T)`. -/
def max_size (elemSize : Nat) : Nat := (WORD - 1) / elemSize

/-- An `array_ref<uint8_t>`: start address, byte length, and the element
values the bytes spell out (unknown cells are `none`). -/
structure ByteSpan (α : Type) where
  addr : Nat
  len : Nat
  payload : List (Option α)
deriving Repr, DecidableEq

/-- A default-constructed (empty) `array_ref<uint8_t>`. -/
def ByteSpan.empty : ByteSpan α := ⟨0, 0, []⟩

/-- `clear()` — destroys the elements, keeps pointer, capacity, ownership. -/
def clear (v : FV α) : FV α := { v with contents := [] }

/-- `ReallocateMemory(newByteSize)`.  The byte count requested from the
allocator is `max newByteSize 1` (the code rounds zero-byte requests up to
one byte); since addresses are abstract, only the oracle's answer matters.
* `dataIsAllocatedMemory_ && is_trivially_move_constructible`: `realloc`;
  on failure it throws `bad_alloc` with every field untouched, on success
  only `data_` changes.
* otherwise: `malloc` **with no null check**, `uninitialized_move` of the
  live elements into the new block, `free` of the old block if owned, then
  adopt the new block and set `dataIsAllocatedMemory_ = true`.  A failed
  `malloc` therefore goes undetected: with no live elements the container
  silently adopts a null block; with live elements the move writes through
  a null pointer, which is undefined behaviour. -/
def ReallocateMemory (ty : Ty α) (r : AllocResult) (v : FV α) : Outcome (FV α) :=
  if v.owned && ty.trivialMove then
    match r with
    | .fail => .thrown v
    | .ok a => .ok { v with ptr := a }
  else
    match r with
    | .ok a => .ok { v with ptr := a, owned := true }
    | .fail =>
      if v.size = 0 then .ok { v with ptr := 0, owned := true }
      else .ub

/-- `reserve(newCapacity)` — early-out when `newCapacity <= capacity_`;
throws `bad_alloc` when `newCapacity > max_size()`; otherwise reallocates
to `newCapacity * sizeof(T)` bytes and records the new capacity. -/
def reserve (ty : Ty α) (r : AllocResult) (v : FV α) (newCapacity : Nat) :
    Outcome (FV α) :=
  if newCapacity ≤ v.capacity then .ok v
  else if newCapacity > max_size ty.elemSize then .thrown v
  else
    match ReallocateMemory ty r v with
    | .ok v2 => .ok { v2 with capacity := newCapacity }
    | .thrown v2 => .thrown v2
    | .ub => .ub

/-- `shrink_to_fit()` — no-op unless heap-owned with slack; otherwise
reallocates to `size_ * sizeof(T)` bytes and sets `capacity_ = size_`. -/
def shrink_to_fit (ty : Ty α) (r : AllocResult) (v : FV α) : Outcome (FV α) :=
  if !v.owned || v.capacity == v.size then .ok v
  else
    match ReallocateMemory ty r v with
    | .ok v2 => .ok { v2 with capacity := v2.size }
    | .thrown v2 => .thrown v2
    | .ub => .ub

/-- The cell a grown `resize` exposes: value-constructed when
`ShouldInitializeElements`, otherwise raw memory. -/
def newCell (ty : Ty α) : Option α :=
  if ty.shouldInit then some ty.defaultVal else none

/-- `resize(newSize)`.
Growing: when `newSize > capacity_`, first `reserve(max(size_ * 3 / 2, newSize))`
(the multiplication wraps in `size_t`); then value-construct
`[size_, newSize)` when `ShouldInitializeElements`, and set `size_`.
Shrinking: destroy `[newSize, size_)` and set `size_`; capacity kept. -/
def resize (ty : Ty α) (r : AllocResult) (v : FV α) (newSize : Nat) :
    Outcome (FV α) :=
  if v.size < newSize then
    match (if v.capacity < newSize then
             reserve ty r v (max (v.size * 3 % WORD / 2) newSize)
           else .ok v) with
    | .ok v2 => .ok { v2 with contents := v2.contents ++ List.replicate (newSize - v2.size) (newCell ty) }
    | .thrown v2 => .thrown v2
    | .ub => .ub
  else if newSize < v.size then
    .ok { v with contents := v.contents.take newSize }
  else .ok v

/-- `push_back(value)` — `reserve(size_ + 1)`, placement-new at
`data_[size_]`, then `++size_`. -/
def push_back (ty : Ty α) (r : AllocResult) (v : FV α) (x : α) : Outcome (FV α) :=
  match reserve ty r v (v.size + 1) with
  | .ok v2 => .ok { v2 with contents := v2.contents ++ [some x] }
  | .thrown v2 => .thrown v2
  | .ub => .ub

/-- `assign(span)` — `clear()`, `reserve(span.size())`,
`uninitialized_copy` of the span's cells, set `size_`. -/
def assign (ty : Ty α) (r : AllocResult) (v : FV α) (span : List (Option α)) :
    Outcome (FV α) :=
  match reserve ty r (clear v) span.length with
  | .ok v2 => .ok { v2 with contents := span }
  | .thrown v2 => .thrown v2
  | .ub => .ub

/-- `assign_move(span)` — like `assign` but `uninitialized_move`s the
span's elements in; the effect on this container is the same value-wise
(the span's owner, not this function, keeps the moved-from originals). -/
def assign_move (ty : Ty α) (r : AllocResult) (v : FV α)
    (span : List (Option α)) : Outcome (FV α) :=
  match reserve ty r (clear v) span.length with
  | .ok v2 => .ok { v2 with contents := span }
  | .thrown v2 => .thrown v2
  | .ub => .ub

/-- `detach_memory()` — when heap-owned, hands back
`{data_, size_ * sizeof(T)}` and nulls out pointer, size and capacity
(`dataIsAllocatedMemory_` is left as is); otherwise returns a
default-constructed empty span and changes nothing. -/
def detach_memory (ty : Ty α) (v : FV α) : ByteSpan α × FV α :=
  if v.owned then
    (⟨v.ptr, v.size * ty.elemSize, v.contents⟩,
     { v with ptr := 0, contents := [], capacity := 0 })
  else (ByteSpan.empty, v)

/-- The cells `attach_memory` finds in an adopted region of `n` elements:
the known payload, padded with raw cells to the element count the byte
length implies. -/
def regionCells (n : Nat) (xs : List (Option α)) : List (Option α) :=
  xs.take n ++ List.replicate (n - xs.length) none

/-- `attach_memory(data)` — `clear()`, then adopt: `data_ = data.data()`,
`size_ = data.size() / sizeof(T)` (integer division), `capacity_ = size_`,
`dataIsAllocatedMemory_ = true`. -/
def attach_memory (ty : Ty α) (v : FV α) (data : ByteSpan α) : FV α :=
  let n := data.len / ty.elemSize
  { ptr := data.addr
    contents := regionCells n data.payload
    capacity := n
    owned := true }

/-- `transfer_from(other)`; the result pairs the new `*this` with the new
`other`.
* `other.dataIsAllocatedMemory_`: `clear()`, then steal `data_`, `size_`,
  `capacity_` (zeroing them in `other`); the flag handling transcribes the
  source's two consecutive assignments
  `dataIsAllocatedMemory_ = other.dataIsAllocatedMemory_;`
  `dataIsAllocatedMemory_ = false;` — so `*this` ends not owning and
  `other.dataIsAllocatedMemory_` is never written.
* otherwise: `assign_move(other)`, which reads `other`'s span without
  touching `other`'s fields; `other`'s elements are left moved-from. -/
def transfer_from (ty : Ty α) (r : AllocResult) (v other : FV α) :
    Outcome (FV α × FV α) :=
  if other.owned then
    .ok ({ ptr := other.ptr, contents := other.contents,
           capacity := other.capacity, owned := false },
         { other with ptr := 0, contents := [], capacity := 0 })
  else
    match assign_move ty r v other.contents with
    | .ok v2 => .ok (v2, { other with contents := other.contents.map (Option.map ty.moved) })
    | .thrown v2 => .thrown (v2, other)
    | .ub => .ub

/-- The container states an `Outcome` leaves behind: the normal-return
state, or the state observed when the exception propagates. -/
inductive InOut {σ : Type} : σ → Outcome σ → Prop
  | ok (s : σ) : InOut s (Outcome.ok s)
  | thrown (s : σ) : InOut s (Outcome.thrown s)

/-- States reachable through the public operations of the storage core,
for any allocator behaviour, from any construction. -/
inductive Reachable (ty : Ty α) : FV α → Prop
  | init : Reachable ty mkEmpty
  | initBuffer (addr cap : Nat) : Reachable ty (mkWithBuffer addr cap)
  | ofClear {v : FV α} : Reachable ty v → Reachable ty (clear v)
  | ofAssign {v w : FV α} (r : AllocResult) (span : List (Option α)) :
      Reachable ty v → InOut w (assign ty r v span) → Reachable ty w
  | ofAssignMove {v w : FV α} (r : AllocResult) (span : List (Option α)) :
      Reachable ty v → InOut w (assign_move ty r v span) → Reachable ty w
  | ofResize {v w : FV α} (r : AllocResult) (n : Nat) :
      Reachable ty v → InOut w (resize ty r v n) → Reachable ty w
  | ofReserve {v w : FV α} (r : AllocResult) (n : Nat) :
      Reachable ty v → InOut w (reserve ty r v n) → Reachable ty w
  | ofShrink {v w : FV α} (r : AllocResult) :
      Reachable ty v → InOut w (shrink_to_fit ty r v) → Reachable ty w
  | ofPush {v w : FV α} (r : AllocResult) (x : α) :
      Reachable ty v → InOut w (push_back ty r v x) → Reachable ty w
  | ofDetach {v : FV α} :
      Reachable ty v → Reachable ty (detach_memory ty v).2
  | ofAttach {v : FV α} (data : ByteSpan α) :
      Reachable ty v → Reachable ty (attach_memory ty v data)
  | ofTransferDst {v other : FV α} {p : FV α × FV α} (r : AllocResult) :
      Reachable ty v → Reachable ty other →
      InOut p (transfer_from ty r v other) → Reachable ty p.1
  | ofTransferSrc {v other : FV α} {p : FV α × FV α} (r : AllocResult) :
      Reachable ty v → Reachable ty other →
      InOut p (transfer_from ty r v other) → Reachable ty p.2

theorem size_clear (v : FV α) : (clear v).size = 0 := rfl

theorem capacity_clear (v : FV α) : (clear v).capacity = v.capacity := rfl

/-- `ReallocateMemory` never touches the elements or the capacity, on the
normal path and on the throwing path alike. -/
theorem ReallocateMemory_frame {ty : Ty α} {r : AllocResult} {v w : FV α}
    (h : InOut w (ReallocateMemory ty r v)) :
    w.contents = v.contents ∧ w.capacity = v.capacity := by
  unfold ReallocateMemory at h
  by_cases hb : (v.owned && ty.trivialMove) = true
  · rw [if_pos hb] at h
    cases r <;> cases h <;> exact ⟨rfl, rfl⟩
  · rw [if_neg hb] at h
    cases r with
    | ok a => cases h; exact ⟨rfl, rfl⟩
    | fail =>
      by_cases hz : v.size = 0
      · rw [if_pos hz] at h; cases h; exact ⟨rfl, rfl⟩
      · rw [if_neg hz] at h; cases h

/-- `reserve` never touches the elements and never lowers the capacity. -/
theorem reserve_frame {ty : Ty α} {r : AllocResult} {v w : FV α} {n : Nat}
    (h : InOut w (reserve ty r v n)) :
    w.contents = v.contents ∧ v.capacity ≤ w.capacity := by
  unfold reserve at h
  by_cases hle : n ≤ v.capacity
  · rw [if_pos hle] at h
    cases h <;> exact ⟨rfl, le_refl _⟩
  · rw [if_neg hle] at h
    by_cases hmax : n > max_size ty.elemSize
    · rw [if_pos hmax] at h
      cases h <;> exact ⟨rfl, le_refl _⟩
    · rw [if_neg hmax] at h
      rcases hre : ReallocateMemory ty r v with v2 | v2 | _ <;> rw [hre] at h
      · have hio : InOut v2 (ReallocateMemory ty r v) := by
          rw [hre]; exact InOut.ok v2
        obtain ⟨hc, hcap2⟩ := ReallocateMemory_frame hio
        cases h
        exact ⟨hc, by simp; omega⟩
      · have hio : InOut v2 (ReallocateMemory ty r v) := by
          rw [hre]; exact InOut.thrown v2
        obtain ⟨hc, hcap2⟩ := ReallocateMemory_frame hio
        cases h
        exact ⟨hc, le_of_eq hcap2.symm⟩
      · cases h

/-- On a normal return, `reserve` additionally guarantees the requested
capacity. -/
theorem reserve_ok {ty : Ty α} {r : AllocResult} {v w : FV α} {n : Nat}
    (h : reserve ty r v n = .ok w) :
    w.contents = v.contents ∧ n ≤ w.capacity ∧ v.capacity ≤ w.capacity := by
  unfold reserve at h
  by_cases hle : n ≤ v.capacity
  · rw [if_pos hle] at h
    cases h
    exact ⟨rfl, hle, le_refl _⟩
  · rw [if_neg hle] at h
    by_cases hmax : n > max_size ty.elemSize
    · rw [if_pos hmax] at h
      cases h
    · rw [if_neg hmax] at h
      rcases hre : ReallocateMemory ty r v with v2 | v2 | _ <;> rw [hre] at h <;> cases h
      have hio : InOut v2 (ReallocateMemory ty r v) := by
        rw [hre]; exact InOut.ok v2
      obtain ⟨hc, hcap2⟩ := ReallocateMemory_frame hio
      exact ⟨hc, by simp, by simp; omega⟩

theorem size_eq_length (v : FV α) : v.size = v.contents.length := rfl

/-- Any state a `reserve` call leaves behind keeps `size ≤ capacity`. -/
theorem reserve_inv {ty : Ty α} {r : AllocResult} {v w : FV α} {n : Nat}
    (hv : v.size ≤ v.capacity) (h : InOut w (reserve ty r v n)) :
    w.size ≤ w.capacity := by
  obtain ⟨hc, hcap⟩ := reserve_frame h
  calc w.size = v.size := by simp [size_eq_length, hc]
    _ ≤ v.capacity := hv
    _ ≤ w.capacity := hcap

theorem length_regionCells (n : Nat) (xs : List (Option α)) :
    (regionCells n xs).length = n := by
  simp [regionCells]
  omega

/-- Any state a `resize` call leaves behind keeps `size ≤ capacity`. -/
theorem resize_inv {ty : Ty α} {r : AllocResult} {v w : FV α} {n : Nat}
    (hv : v.size ≤ v.capacity) (h : InOut w (resize ty r v n)) :
    w.size ≤ w.capacity := by
  unfold resize at h
  by_cases h1 : v.size < n
  · rw [if_pos h1] at h
    by_cases h2 : v.capacity < n
    · rw [if_pos h2] at h
      rcases hres : reserve ty r v (max (v.size * 3 % WORD / 2) n) with v2 | v2 | _ <;>
        rw [hres] at h
      · obtain ⟨hc, hn, _⟩ := reserve_ok hres
        cases h
        have hlen : v2.contents.length = v.contents.length := by rw [hc]
        have hn2 : n ≤ v2.capacity := le_trans (le_max_right _ _) hn
        simp only [FV.size] at h1
        simp only [FV.size, List.length_append, List.length_replicate]
        omega
      · have hio : InOut v2 (reserve ty r v (max (v.size * 3 % WORD / 2) n)) := by
          rw [hres]; exact InOut.thrown v2
        cases h
        exact reserve_inv hv hio
      · cases h
    · rw [if_neg h2] at h
      cases h
      simp only [FV.size, List.length_append, List.length_replicate]
      have : v.contents.length = v.size := rfl
      omega
  · rw [if_neg h1] at h
    by_cases h3 : n < v.size
    · rw [if_pos h3] at h
      cases h
      simp only [FV.size, List.length_take]
      have : v.contents.length = v.size := rfl
      omega
    · rw [if_neg h3] at h
      cases h
      exact hv

/-- Any state a `shrink_to_fit` call leaves behind keeps `size ≤ capacity`. -/
theorem shrink_to_fit_inv {ty : Ty α} {r : AllocResult} {v w : FV α}
    (hv : v.size ≤ v.capacity) (h : InOut w (shrink_to_fit ty r v)) :
    w.size ≤ w.capacity := by
  unfold shrink_to_fit at h
  by_cases h1 : (!v.owned || v.capacity == v.size) = true
  · rw [if_pos h1] at h
    cases h
    exact hv
  · rw [if_neg h1] at h
    rcases hre : ReallocateMemory ty r v with v2 | v2 | _ <;> rw [hre] at h
    · cases h
      simp [FV.size]
    · have hio : InOut v2 (ReallocateMemory ty r v) := by
        rw [hre]; exact InOut.thrown v2
      obtain ⟨hc, hcap⟩ := ReallocateMemory_frame hio
      cases h
      simp only [FV.size, hc, hcap]
      exact hv
    · cases h

/-- Any state a `push_back` call leaves behind keeps `size ≤ capacity`. -/
theorem push_back_inv {ty : Ty α} {r : AllocResult} {v w : FV α} {x : α}
    (hv : v.size ≤ v.capacity) (h : InOut w (push_back ty r v x)) :
    w.size ≤ w.capacity := by
  unfold push_back at h
  rcases hres : reserve ty r v (v.size + 1) with v2 | v2 | _ <;> rw [hres] at h
  · obtain ⟨hc, hn, _⟩ := reserve_ok hres
    cases h
    simp only [FV.size, List.length_append, List.length_cons, List.length_nil]
    have : v2.contents.length = v.size := by simp [FV.size, hc]
    omega
  · have hio : InOut v2 (reserve ty r v (v.size + 1)) := by
      rw [hres]; exact InOut.thrown v2
    cases h
    exact reserve_inv hv hio
  · cases h

/-- Any state an `assign` call leaves behind keeps `size ≤ capacity`. -/
theorem assign_inv {ty : Ty α} {r : AllocResult} {v w : FV α}
    {span : List (Option α)} (h : InOut w (assign ty r v span)) :
    w.size ≤ w.capacity := by
  unfold assign at h
  rcases hres : reserve ty r (clear v) span.length with v2 | v2 | _ <;> rw [hres] at h
  · obtain ⟨hc, hn, _⟩ := reserve_ok hres
    cases h
    simpa [FV.size] using hn
  · have hio : InOut v2 (reserve ty r (clear v) span.length) := by
      rw [hres]; exact InOut.thrown v2
    cases h
    exact reserve_inv (by simp [size_clear]) hio
  · cases h

/-- Any state an `assign_move` call leaves behind keeps `size ≤ capacity`. -/
theorem assign_move_inv {ty : Ty α} {r : AllocResult} {v w : FV α}
    {span : List (Option α)} (h : InOut w (assign_move ty r v span)) :
    w.size ≤ w.capacity := by
  unfold assign_move at h
  rcases hres : reserve ty r (clear v) span.length with v2 | v2 | _ <;> rw [hres] at h
  · obtain ⟨hc, hn, _⟩ := reserve_ok hres
    cases h
    simpa [FV.size] using hn
  · have hio : InOut v2 (reserve ty r (clear v) span.length) := by
      rw [hres]; exact InOut.thrown v2
    cases h
    exact reserve_inv (by simp [size_clear]) hio
  · cases h

/-- C8: in every state reachable through any sequence of construction,
`assign`, `assign_move`, `clear`, `resize`, `reserve`, `shrink_to_fit`,
`push_back`, `detach_memory`, `attach_memory` and `transfer_from` calls
(under any allocator behaviour, counting both normal returns and the
states left behind by a thrown `bad_alloc`), `size_ ≤ capacity_` holds.
Proved by induction over the reachability relation: every operation both
preserves and (where it builds a state from scratch) establishes the
inequality. -/
theorem reachable_size_le_capacity {ty : Ty α} {v : FV α}
    (h : Reachable ty v) : v.size ≤ v.capacity := by
  induction h with
  | init => exact Nat.le_refl 0
  | initBuffer addr cap => exact Nat.zero_le cap
  | ofClear _ _ => simp [size_clear]
  | ofAssign r span _ hio _ => exact assign_inv hio
  | ofAssignMove r span _ hio _ => exact assign_move_inv hio
  | ofResize r n _ hio ih => exact resize_inv ih hio
  | ofReserve r n _ hio ih => exact reserve_inv ih hio
  | ofShrink r _ hio ih => exact shrink_to_fit_inv ih hio
  | ofPush r x _ hio ih => exact push_back_inv ih hio
  | @ofDetach v' _ ih =>
    by_cases ho : v'.owned = true
    · simp [detach_memory, ho, FV.size]
    · simp only [detach_memory, if_neg ho]
      exact ih
  | ofAttach data _ _ =>
    simp [attach_memory, FV.size, length_regionCells]
  | @ofTransferDst v' other p r _ _ hio ih iho =>
    unfold transfer_from at hio
    by_cases ho : other.owned = true
    · rw [if_pos ho] at hio
      cases hio
      exact iho
    · rw [if_neg ho] at hio
      rcases hres : assign_move ty r v' other.contents with v2 | v2 | _ <;>
        rw [hres] at hio <;> cases hio
      · exact assign_move_inv (by rw [hres]; exact InOut.ok v2)
      · exact assign_move_inv (by rw [hres]; exact InOut.thrown v2)
  | @ofTransferSrc v' other p r _ _ hio ih iho =>
    unfold transfer_from at hio
    by_cases ho : other.owned = true
    · rw [if_pos ho] at hio
      cases hio
      exact Nat.le_refl 0
    · rw [if_neg ho] at hio
      rcases hres : assign_move ty r v' other.contents with v2 | v2 | _ <;>
        rw [hres] at hio <;> cases hio
      · simpa [FV.size] using iho
      · exact iho

/-- When the allocator answers with an address, `ReallocateMemory` returns
normally, adopts that address, and leaves elements and capacity alone. -/
theorem ReallocateMemory_ok_of_alloc_ok (ty : Ty α) (a : Nat) (v : FV α) :
    ∃ w, ReallocateMemory ty (.ok a) v = .ok w ∧
      w.contents = v.contents ∧ w.capacity = v.capacity ∧ w.ptr = a := by
  unfold ReallocateMemory
  by_cases hb : (v.owned && ty.trivialMove) = true
  · rw [if_pos hb]
    exact ⟨_, rfl, rfl, rfl, rfl⟩
  · rw [if_neg hb]
    exact ⟨_, rfl, rfl, rfl, rfl⟩

/-- A `reserve` that actually has to grow, within `max_size()`, with a
successful allocation: it returns normally with exactly the requested
capacity, the same elements, and the freshly allocated address. -/
theorem reserve_ok_of_alloc_ok (ty : Ty α) (a : Nat) (v : FV α) (n : Nat)
    (h1 : v.capacity < n) (h2 : n ≤ max_size ty.elemSize) :
    ∃ w, reserve ty (.ok a) v n = .ok w ∧
      w.contents = v.contents ∧ w.capacity = n ∧ w.ptr = a := by
  obtain ⟨w, hre, hc, _, hp⟩ := ReallocateMemory_ok_of_alloc_ok ty a v
  refine ⟨{ w with capacity := n }, ?_, hc, rfl, hp⟩
  unfold reserve
  rw [if_neg (by omega), if_neg (by omega), hre]

/-- State after `k` consecutive `push_back(x)` calls starting from a
default-constructed (zero-capacity) container, the allocator succeeding at
every step with address `addrs i`. -/
def pushesFrom (ty : Ty α) (addrs : Nat → Nat) (x : α) : Nat → Outcome (FV α)
  | 0 => .ok mkEmpty
  | k + 1 =>
    match pushesFrom ty addrs x k with
    | .ok v => push_back ty (.ok (addrs k)) v x
    | e => e

/-- Does `reserve(n)` on state `v` reach `ReallocateMemory`?  This mirrors
the two early exits of `reserve`: it reallocates exactly when `n` exceeds
the current capacity and does not exceed `max_size()`. -/
def reserveReallocates (ty : Ty α) (v : FV α) (n : Nat) : Bool :=
  decide (v.capacity < n ∧ n ≤ max_size ty.elemSize)

/-- Number of reallocations performed across the first `k` pushes of
`pushesFrom`. -/
def pushReallocCount (ty : Ty α) (addrs : Nat → Nat) (x : α) : Nat → Nat
  | 0 => 0
  | k + 1 =>
    pushReallocCount ty addrs x k +
      match pushesFrom ty addrs x k with
      | .ok v => if reserveReallocates ty v (v.size + 1) then 1 else 0
      | _ => 0

/-- From empty, every single `push_back` reallocates: after `k` pushes the
size and the capacity are both exactly `k`, and `k` reallocations have
happened — `reserve(size + 1)` grows capacity by exactly one element, the
1.5× growth rule of `resize` is never consulted. -/
theorem pushesFrom_linear (ty : Ty α) (addrs : Nat → Nat) (x : α) :
    ∀ k, k ≤ max_size ty.elemSize →
      ∃ v : FV α, pushesFrom ty addrs x k = .ok v ∧
        v.size = k ∧ v.capacity = k ∧
        pushReallocCount ty addrs x k = k := by
  intro k
  induction k with
  | zero => exact fun _ => ⟨mkEmpty, rfl, rfl, rfl, rfl⟩
  | succ k ih =>
    intro hk
    obtain ⟨v, hpf, hs, hc, hcnt⟩ := ih (Nat.le_of_succ_le hk)
    have hs' : v.contents.length = k := hs
    obtain ⟨w, hres, hwc, hwcap, _⟩ :=
      reserve_ok_of_alloc_ok ty (addrs k) v (v.size + 1) (by omega) (by omega)
    have hrr : reserveReallocates ty v (v.size + 1) = true := by
      simp only [reserveReallocates, decide_eq_true_eq]
      omega
    refine ⟨{ w with contents := w.contents ++ [some x] }, ?_, ?_, ?_, ?_⟩
    · simp only [pushesFrom, hpf, push_back, hres]
    · simp [FV.size, hwc, hs']
    · simp [hwcap, hs]
    · simp [pushReallocCount, hpf, hrr, hcnt]

/-- If `reserve(n)`'s early exits fire (capacity already sufficient, or the
request exceeds `max_size()`), no reallocation happens: the call returns or
throws with the container exactly as it was.  This ties the counting
predicate `reserveReallocates` to `reserve`'s behaviour. -/
theorem reserve_skips_realloc {ty : Ty α} {v : FV α} {n : Nat} (r : AllocResult)
    (h : reserveReallocates ty v n = false) :
    reserve ty r v n = .ok v ∨ reserve ty r v n = .thrown v := by
  simp only [reserveReallocates, decide_eq_false_iff_not, not_and, not_le] at h
  unfold reserve
  by_cases h1 : n ≤ v.capacity
  · rw [if_pos h1]
    exact Or.inl rfl
  · rw [if_neg h1, if_pos (by omega)]
    exact Or.inr rfl

/-- The element type of the spec's scenarios, `int`: 4 bytes, trivially
move constructible, eagerly initialised, default value 0, and a move of a
trivial type leaves the source value in place. -/
def tyInt : Ty Nat := ⟨4, true, true, 0, id⟩

/-- C1: evaluating `transfer_from` at B default-constructed and A
heap-owned (block at address 7 holding [1, 2, 3]): pointer, size and
capacity are stolen as claimed and A ends empty, but B ends with
`dataIsAllocatedMemory_ = false` and A keeps
`dataIsAllocatedMemory_ = true` — the second of the two consecutive
assignments to the flag overwrites `*this`'s freshly copied flag instead
of clearing `other`'s, contradicting both the claim and the code's own
"Take ownership of new data" comment. -/
theorem transfer_from_heap_ownership_flag_bug :
    transfer_from tyInt (.ok 99) mkEmpty ⟨7, [some 1, some 2, some 3], 3, true⟩ =
      .ok (⟨7, [some 1, some 2, some 3], 3, false⟩, ⟨0, [], 0, true⟩) ∧
    (⟨7, [some 1, some 2, some 3], 3, false⟩ : FV Nat).owned = false ∧
    (⟨0, [], 0, true⟩ : FV Nat).owned = true := by decide

/-- C2 counterexample: reading the claimed `O(log k)` reallocation bound
with the generous explicit constant 4 (a 1.5×-growth implementation
performs at most `log_1.5 k + 1 ≤ 1.71·log₂ k + 1` reallocations), the
code violates it already at `k = 64`: sixty-four pushes from empty perform
sixty-four reallocations, more than `4·(log₂ 64 + 1) = 28`. -/
theorem push_back_reallocs_not_logarithmic :
    pushReallocCount tyInt (fun i => 16 * (i + 1)) 7 64 = 64 ∧
    Nat.log 2 64 = 6 ∧
    4 * (Nat.log 2 64 + 1) < pushReallocCount tyInt (fun i => 16 * (i + 1)) 7 64 := by
  have h6 : Nat.log 2 64 = 6 := by
    rw [show (64 : Nat) = 2 ^ 6 by norm_num, Nat.log_pow (by norm_num)]
  have h64 : pushReallocCount tyInt (fun i => 16 * (i + 1)) 7 64 = 64 := by decide
  exact ⟨h64, h6, by omega⟩

/-- C2 (amended): each `push_back` performs `reserve(size_ + 1)` and then
constructs the new element at the tail, but `reserve` grows capacity to
exactly the requested `size_ + 1` — the 1.5× growth rule lives only in
`resize` and is never consulted by `push_back`.  Hence across `k` pushes
starting from empty (for any `k` up to `max_size()`), every push
reallocates: the total number of reallocations is exactly `k`, linear and
not `O(log k)`, and size and capacity both end at exactly `k`. -/
theorem push_back_realloc_count_linear (ty : Ty α) (addrs : Nat → Nat) (x : α)
    (k : Nat) (hk : k ≤ max_size ty.elemSize) :
    pushReallocCount ty addrs x k = k ∧
    ∃ v : FV α, pushesFrom ty addrs x k = .ok v ∧ v.size = k ∧ v.capacity = k := by
  obtain ⟨v, h1, h2, h3, h4⟩ := pushesFrom_linear ty addrs x k hk
  exact ⟨h4, v, h1, h2, h3⟩

/-- Witness for C2 (amended) at `k = 5`. -/
theorem push_back_realloc_count_linear_witness :
    pushReallocCount tyInt (fun i => 16 * (i + 1)) 7 5 = 5 ∧
    ∃ v : FV Nat, pushesFrom tyInt (fun i => 16 * (i + 1)) 7 5 = .ok v ∧
      v.size = 5 ∧ v.capacity = 5 :=
  push_back_realloc_count_linear tyInt (fun i => 16 * (i + 1)) 7 5 (by decide)

/-- C3 counterexample: when no heap block is owned yet (`malloc` path) and
the container is empty, a failing allocation in `reserve(5)` is not
signalled at all: because the `malloc` result is never checked for null,
the call returns normally and the container is mutated — null data
pointer, capacity 5, marked heap-owning. -/
theorem reserve_malloc_failure_unsignalled :
    reserve tyInt .fail (mkEmpty : FV Nat) 5 = .ok ⟨0, [], 5, true⟩ ∧
    (⟨0, [], 5, true⟩ : FV Nat) ≠ (mkEmpty : FV Nat) := by decide

/-- C3 (amended): the two guarded failure paths do signal `bad_alloc` and
leave the container's prior state completely unchanged: (a) any request
exceeding `max_size()` — in particular `reserve(max_size() + 1)`; (b) a
failing `realloc` in the heap-owned, trivially-movable path.  (The
`malloc` path performs no null check; see the counterexample.) -/
theorem reserve_failure_guarded_paths (ty : Ty α) (r : AllocResult) (v : FV α)
    (n : Nat) :
    (v.capacity ≤ max_size ty.elemSize →
      reserve ty r v (max_size ty.elemSize + 1) = .thrown v) ∧
    (v.owned = true → ty.trivialMove = true → v.capacity < n →
      n ≤ max_size ty.elemSize → reserve ty .fail v n = .thrown v) := by
  constructor
  · intro hcap
    unfold reserve
    rw [if_neg (by omega), if_pos (by omega)]
  · intro ho ht h1 h2
    unfold reserve
    rw [if_neg (by omega), if_neg (by omega)]
    unfold ReallocateMemory
    rw [if_pos (by simp [ho, ht])]

/-- Witness for C3 (amended): `reserve(max_size() + 1)` on an empty
container, and a failing `realloc` on a heap-owned container of one
element, both throw with the state untouched. -/
theorem reserve_failure_guarded_paths_witness :
    reserve tyInt .fail (mkEmpty : FV Nat) (max_size tyInt.elemSize + 1) =
      .thrown mkEmpty ∧
    reserve tyInt .fail (⟨7, [some 1], 1, true⟩ : FV Nat) 3 =
      .thrown ⟨7, [some 1], 1, true⟩ :=
  ⟨(reserve_failure_guarded_paths tyInt .fail mkEmpty 3).1 (by decide),
   (reserve_failure_guarded_paths tyInt .fail ⟨7, [some 1], 1, true⟩ 3).2
     rfl rfl (by decide) (by decide)⟩

/-- C4 counterexample: B inline-less and empty, A inline-resident with
[1, 2, 3]: after `B.transfer_from(A)`, B holds A's values in a fresh block,
but A is NOT left empty — `assign_move` only reads A through a span and
never writes A's `size_`, so A still reports size 3 (its elements merely
left in a moved-from state, which for a trivial type is the original
value). -/
theorem transfer_from_inline_leaves_source_filled :
    transfer_from tyInt (.ok 9) mkEmpty ⟨5, [some 1, some 2, some 3], 4, false⟩ =
      .ok (⟨9, [some 1, some 2, some 3], 3, true⟩,
           ⟨5, [some 1, some 2, some 3], 4, false⟩) ∧
    (⟨5, [some 1, some 2, some 3], 4, false⟩ : FV Nat).size ≠ 0 := by decide

/-- C4 (amended): for B and a distinct inline-resident A (distinct backing
addresses, allocator succeeding with a fresh address), after
`B.transfer_from(A)`: B's contents equal A's prior contents element for
element but reside at a different address (an O(n) element-wise move,
possibly reallocating B); A's size, capacity and ownership flag are
unchanged — A is NOT emptied — and A's elements are left in the moved-from
state. -/
theorem transfer_from_inline_moves_elements (ty : Ty α) (a : Nat)
    (v other : FV α) (ho : other.owned = false) (hv : v.ptr ≠ other.ptr)
    (ha : a ≠ other.ptr) (hsz : other.size ≤ max_size ty.elemSize) :
    ∃ p : FV α × FV α, transfer_from ty (.ok a) v other = .ok p ∧
      p.1.contents = other.contents ∧ p.1.size = other.size ∧
      p.1.ptr ≠ other.ptr ∧
      p.2.size = other.size ∧ p.2.capacity = other.capacity ∧
      p.2.owned = false ∧
      p.2.contents = other.contents.map (Option.map ty.moved) := by
  have hbranch : ¬other.owned = true := by simp [ho]
  by_cases hcap : other.contents.length ≤ v.capacity
  · refine ⟨({ clear v with contents := other.contents },
             { other with contents := other.contents.map (Option.map ty.moved) }),
      ?_, rfl, rfl, hv, ?_, rfl, ho, rfl⟩
    · unfold transfer_from
      rw [if_neg hbranch]
      unfold assign_move
      unfold reserve
      rw [if_pos (show other.contents.length ≤ (clear v).capacity from hcap)]
    · simp [FV.size]
  · obtain ⟨w, hres, hwc, _, hwp⟩ :=
      reserve_ok_of_alloc_ok ty a (clear v) other.contents.length
        (by simpa [capacity_clear] using Nat.lt_of_not_le hcap) hsz
    refine ⟨({ w with contents := other.contents },
             { other with contents := other.contents.map (Option.map ty.moved) }),
      ?_, rfl, rfl, ?_, ?_, rfl, ho, rfl⟩
    · unfold transfer_from
      rw [if_neg hbranch]
      unfold assign_move
      rw [hres]
    · show w.ptr ≠ other.ptr
      rw [hwp]
      exact ha
    · simp [FV.size]

/-- Witness for C4 (amended): B empty, A inline at address 5 with three
elements, allocation succeeding at address 9. -/
theorem transfer_from_inline_moves_elements_witness :
    ∃ p : FV Nat × FV Nat,
      transfer_from tyInt (.ok 9) mkEmpty
          ⟨5, [some 1, some 2, some 3], 4, false⟩ = .ok p ∧
      p.1.contents = [some 1, some 2, some 3] ∧ p.1.size = 3 ∧
      p.1.ptr ≠ 5 ∧
      p.2.size = 3 ∧ p.2.capacity = 4 ∧ p.2.owned = false ∧
      p.2.contents = ([some 1, some 2, some 3] : List (Option Nat)).map
        (Option.map tyInt.moved) :=
  transfer_from_inline_moves_elements tyInt 9 mkEmpty
    ⟨5, [some 1, some 2, some 3], 4, false⟩ rfl (by decide) (by decide) (by decide)

/-- C5: `detach_memory` on a heap-owned container hands back a byte region
of exactly `size_ * sizeof(T)` bytes and resets the container to size 0
and capacity 0; on a non-heap-owned (inline-resident) container it returns
the empty region and leaves the container entirely unchanged. -/
theorem detach_memory_heap_and_inline (ty : Ty α) (v : FV α) :
    (v.owned = true →
      (detach_memory ty v).1.len = v.size * ty.elemSize ∧
      (detach_memory ty v).2.size = 0 ∧
      (detach_memory ty v).2.capacity = 0) ∧
    (v.owned = false →
      (detach_memory ty v).1 = ByteSpan.empty ∧
      (detach_memory ty v).2 = v) := by
  constructor
  · intro ho
    simp [detach_memory, ho, FV.size]
  · intro ho
    simp [detach_memory, ho]

/-- Witness for C5: a heap-owned container of 3 ints yields a 12-byte
region and is reset; an inline container of 2 ints yields the empty region
and is untouched. -/
theorem detach_memory_heap_and_inline_witness :
    (detach_memory tyInt (⟨7, [some 1, some 2, some 3], 3, true⟩ : FV Nat)).1.len = 12 ∧
    (detach_memory tyInt (⟨7, [some 1, some 2, some 3], 3, true⟩ : FV Nat)).2.size = 0 ∧
    (detach_memory tyInt (⟨7, [some 1, some 2, some 3], 3, true⟩ : FV Nat)).2.capacity = 0 ∧
    (detach_memory tyInt (⟨5, [some 4, some 5], 4, false⟩ : FV Nat)).1 = ByteSpan.empty ∧
    (detach_memory tyInt (⟨5, [some 4, some 5], 4, false⟩ : FV Nat)).2 =
      ⟨5, [some 4, some 5], 4, false⟩ := by
  obtain ⟨h1, h2, h3⟩ :=
    (detach_memory_heap_and_inline tyInt ⟨7, [some 1, some 2, some 3], 3, true⟩).1 rfl
  obtain ⟨h4, h5⟩ :=
    (detach_memory_heap_and_inline tyInt ⟨5, [some 4, some 5], 4, false⟩).2 rfl
  exact ⟨h1, h2, h3, h4, h5⟩

/-- C6: growing `resize(n)` with `n > size_`: when `n ≤ capacity_` the
capacity is left alone and the new cells `[size_, n)` are default
constructed (or left raw when `ShouldInitializeElements` is off, per
`newCell`); when `n > capacity_` (and the allocator succeeds and the 1.5×
target fits `max_size()`), capacity first grows to exactly
`max(size_ * 3 / 2, n)` — the multiplication wrapping in `size_t` — and
then the new cells are filled in and the size becomes `n`. -/
theorem resize_grow_capacity_rule (ty : Ty α) (a : Nat) (v : FV α) (n : Nat)
    (hn : v.size < n) :
    (n ≤ v.capacity →
      resize ty (.ok a) v n =
        .ok { v with contents := v.contents ++ List.replicate (n - v.size) (newCell ty) }) ∧
    (v.capacity < n →
      max (v.size * 3 % WORD / 2) n ≤ max_size ty.elemSize →
      ∃ w, resize ty (.ok a) v n = .ok w ∧
        w.capacity = max (v.size * 3 % WORD / 2) n ∧
        w.contents = v.contents ++ List.replicate (n - v.size) (newCell ty) ∧
        w.size = n) := by
  constructor
  · intro hcap
    unfold resize
    rw [if_pos hn, if_neg (by omega)]
  · intro hcap hmax
    obtain ⟨w0, hres, hwc, hwcap, _⟩ :=
      reserve_ok_of_alloc_ok ty a v (max (v.size * 3 % WORD / 2) n)
        (lt_of_lt_of_le hcap (le_max_right _ _)) hmax
    have hn' : v.contents.length < n := hn
    refine ⟨{ w0 with contents :=
        w0.contents ++ List.replicate (n - w0.size) (newCell ty) }, ?_, ?_, ?_, ?_⟩
    · unfold resize
      rw [if_pos hn, if_pos hcap, hres]
    · simpa using hwcap
    · simp [FV.size, hwc]
    · simp only [FV.size, List.length_append, List.length_replicate, hwc]
      omega

/-- Witness for C6: the `n ≤ capacity` case at `[1,2]`, capacity 10,
`resize(5)`; and the growing case at `[1,2]`, capacity 2, `resize(3)`,
where the new capacity is `max(2·3/2, 3) = 3`. -/
theorem resize_grow_capacity_rule_witness :
    resize tyInt (.ok 9) (⟨7, [some 1, some 2], 10, true⟩ : FV Nat) 5 =
      .ok ⟨7, [some 1, some 2, some 0, some 0, some 0], 10, true⟩ ∧
    ∃ w : FV Nat, resize tyInt (.ok 9) (⟨7, [some 1, some 2], 2, true⟩ : FV Nat) 3 = .ok w ∧
      w.capacity = max ((⟨7, [some 1, some 2], 2, true⟩ : FV Nat).size * 3 % WORD / 2) 3 ∧
      w.contents = [some 1, some 2] ++ List.replicate 1 (newCell tyInt) ∧
      w.size = 3 :=
  ⟨(resize_grow_capacity_rule tyInt 9 ⟨7, [some 1, some 2], 10, true⟩ 5
      (by decide)).1 (by decide),
   (resize_grow_capacity_rule tyInt 9 ⟨7, [some 1, some 2], 2, true⟩ 3
      (by decide)).2 (by decide) (by decide)⟩

/-- C7: shrinking `resize(n)` with `n < size_` destroys exactly the
elements `[n, size_)`, keeps the first `n` elements, the capacity, the
data pointer and the ownership flag unchanged (no deallocation), and sets
the size to `n`. -/
theorem resize_shrink_frame (ty : Ty α) (r : AllocResult) (v : FV α) (n : Nat)
    (hn : n < v.size) :
    ∃ w, resize ty r v n = .ok w ∧ w.contents = v.contents.take n ∧
      w.size = n ∧ w.capacity = v.capacity ∧ w.ptr = v.ptr ∧
      w.owned = v.owned := by
  have hn' : n < v.contents.length := hn
  refine ⟨{ v with contents := v.contents.take n }, ?_, rfl, ?_, rfl, rfl, rfl⟩
  · unfold resize
    rw [if_neg (by omega), if_pos hn]
  · simp only [FV.size, List.length_take]
    omega

/-- Witness for C7: `[1,2,3,4,5]` heap-resident with capacity 8,
`resize(2)`. -/
theorem resize_shrink_frame_witness :
    ∃ w : FV Nat,
      resize tyInt (.ok 9)
          (⟨7, [some 1, some 2, some 3, some 4, some 5], 8, true⟩ : FV Nat) 2 = .ok w ∧
      w.contents = ([some 1, some 2, some 3, some 4, some 5] : List (Option Nat)).take 2 ∧
      w.size = 2 ∧ w.capacity = 8 ∧ w.ptr = 7 ∧ w.owned = true :=
  resize_shrink_frame tyInt (.ok 9)
    ⟨7, [some 1, some 2, some 3, some 4, some 5], 8, true⟩ 2 (by decide)

/-- Witness for C8: the state after one successful `push_back` on a
default-constructed container is reachable and satisfies the invariant. -/
theorem reachable_size_le_capacity_witness :
    (⟨16, [some 7], 1, true⟩ : FV Nat).size ≤
      (⟨16, [some 7], 1, true⟩ : FV Nat).capacity :=
  reachable_size_le_capacity
    (@Reachable.ofPush Nat tyInt mkEmpty ⟨16, [some 7], 1, true⟩ (.ok 16) 7
      Reachable.init
      (by rw [show push_back tyInt (.ok 16) mkEmpty 7 =
            .ok ⟨16, [some 7], 1, true⟩ from by decide]
          exact InOut.ok _))

/-- C9: `attach_memory` on any byte region — byte length a multiple of the
element size or not — sets both size and capacity to the byte length
divided by `sizeof(T)` rounded down (remainder bytes are silently
dropped), adopts the region's address as the data pointer, and marks the
container heap-owning. -/
theorem attach_memory_floor_div (ty : Ty α) (v : FV α) (data : ByteSpan α) :
    (attach_memory ty v data).size = data.len / ty.elemSize ∧
    (attach_memory ty v data).capacity = data.len / ty.elemSize ∧
    (attach_memory ty v data).ptr = data.addr ∧
    (attach_memory ty v data).owned = true := by
  refine ⟨?_, rfl, rfl, rfl⟩
  simp [attach_memory, FV.size, length_regionCells]

/-- C10: the byte region `detach_memory` returns from a heap-owned
container has length `size_ * sizeof(T)`, not `capacity_ * sizeof(T)`:
whenever capacity exceeds size, the returned length is strictly smaller
than the block's capacity in bytes. -/
theorem detach_memory_len_is_size_bytes (ty : Ty α) (v : FV α)
    (ho : v.owned = true) (he : 0 < ty.elemSize) :
    (detach_memory ty v).1.len = v.size * ty.elemSize ∧
    (v.size < v.capacity →
      (detach_memory ty v).1.len < v.capacity * ty.elemSize) := by
  constructor
  · simp [detach_memory, ho, FV.size]
  · intro hlt
    unfold detach_memory
    rw [if_pos ho]
    show v.size * ty.elemSize < v.capacity * ty.elemSize
    exact mul_lt_mul_of_pos_right hlt he

/-- Witness for C10: heap-owned, 3 ints, capacity 8 — the region is 12
bytes, strictly less than the 32 capacity bytes. -/
theorem detach_memory_len_is_size_bytes_witness :
    (detach_memory tyInt (⟨7, [some 1, some 2, some 3], 8, true⟩ : FV Nat)).1.len = 12 ∧
    (detach_memory tyInt (⟨7, [some 1, some 2, some 3], 8, true⟩ : FV Nat)).1.len < 32 := by
  obtain ⟨h1, h2⟩ := detach_memory_len_is_size_bytes tyInt
    ⟨7, [some 1, some 2, some 3], 8, true⟩ rfl (by decide)
  exact ⟨h1, h2 (by decide)⟩

end FastVector
